import Mathlib

/-!
Shallow embedding of the `mlplexus` repository (files `mlplexus/graph.py`,
`mlplexus/checks.py`, `mlplexus/exception.py`) for verifying the claims of
its natural-language specification.

Modelling choices:
* numpy `ndarray`s are modelled as a shape (list of axis lengths) together
  with row-major flat data (`NDArr`).  `squeeze`, `expand_dims(axis=0)`,
  transposition (`.T`, which reverses all axes), `len` (first axis) and
  `ndim` are translated directly.
* element values of the `float64` activity/adjacency fields are modelled by
  `Int` (the claims only concern copying of values, never arithmetic);
  layer-field values are modelled by `Val`, with a per-field declared dtype
  (`DType`) and a fallible cast `castTo` standing for
  `np.array(data, dtype=sel_dtype)` — distinguishing the `TypeError`
  failures the code catches (re-raised as `mlPlexusTypeError`) from the
  `ValueError` failures that escape the `except TypeError` clause.
* the filesystem is an explicit state `FS`: association lists from paths to
  persisted definition records and to dataset files (lists of records).
  A memory-mapped dataset file is a `List Obs`; creating a fresh store with
  `np.memmap(path, mode='w+', shape=())` writes one zero-filled record to
  disk while the read-only view has length 0 (`Arch.viewLen`), exactly as
  in `GraphArch._io_arch_dat`.
* Python exceptions are `Except Err`; `runModify` reflects exception
  semantics (a raising call leaves the state unchanged).
* `type(arr) is np.ndarray` is modelled by a boolean tag carried with every
  data argument: `some (true, a)` is an `np.ndarray`, `some (false, a)` a
  plain (nested) Python list of the same shape, `none` is `None`.
-/

namespace MLPlexus

/-- Errors a `modify`/constructor call can surface: the
`mlPlexusTypeError` and `mlPlexusValueError` kinds that `graph.py` raises
itself, and the raw builtin `ValueError` that numpy raises inside a
failed layer cast — the `except TypeError` clause at `graph.py:248`
catches only `TypeError`, so that `ValueError` propagates uncaught,
wrapped by no `mlplexus` exception kind. -/
inductive Err where
  | typeErr
  | valueErr
  | rawValueErr
deriving DecidableEq, Repr

/-- Layer-field element values: numbers, strings, and Python `None` (an
object), standing for the elements a caller may pass for a declared
layer field. -/
inductive Val where
  | i (n : Int)
  | s (t : String)
  | pyNone
deriving DecidableEq, Repr

instance : Inhabited Val := ⟨.i 0⟩

/-- Declared element type of a layer field (`dtype` in the structured
schema). -/
inductive DType where
  | dInt
  | dStr
deriving DecidableEq, Repr

/-- How an elementwise cast inside `np.array(lr_data, dtype=sel_dtype)`
fails: with a builtin `TypeError` (e.g. `int(None)`) or with a builtin
`ValueError` (e.g. `int('x')` — a non-numeric string). -/
inductive CastErr where
  | typeE
  | valueE
deriving DecidableEq, Repr

/-- The numeric value of a decimal digit character. -/
def charDigit? (c : Char) : Option Nat :=
  if c.isDigit then some (c.toNat - '0'.toNat) else none

/-- Parse a non-empty all-digit character list as a natural number. -/
def natFromDigits (cs : List Char) : Option Nat :=
  if cs.isEmpty then none
  else cs.foldl (fun acc c =>
    match acc, charDigit? c with
    | some n, some d => some (n * 10 + d)
    | _, _ => none) (some 0)

/-- Parse an optionally-signed decimal integer literal, as `int(str)`
does for the strings numpy accepts when casting to an integer dtype. -/
def strToInt? (t : String) : Option Int :=
  match t.data with
  | '-' :: rest => (natFromDigits rest).map (fun n => -(n : Int))
  | cs => (natFromDigits cs).map (fun n => (n : Int))

/-- Cast a supplied value to a declared layer dtype, as
`np.array(lr_data, dtype=sel_dtype)` does elementwise.  Converting to an
integer dtype parses numeric strings, fails with `ValueError` on other
strings, and fails with `TypeError` on `None`; converting to a string
dtype stringifies everything. -/
def castTo : DType → Val → Except CastErr Val
  | .dInt, .i n => .ok (.i n)
  | .dInt, .s t =>
      match strToInt? t with
      | some n => .ok (.i n)
      | none => .error .valueE
  | .dInt, .pyNone => .error .typeE
  | .dStr, .s t => .ok (.s t)
  | .dStr, .i n => .ok (.s (toString n))
  | .dStr, .pyNone => .ok (.s "None")

/-- The error a failing layer cast surfaces from `_check_data_input`: a
`TypeError` is caught by the `except TypeError` clause and re-raised as
`mlPlexusTypeError`; a `ValueError` is not caught and propagates as the
raw builtin `ValueError`. -/
def castFailErr : CastErr → Err
  | .typeE => .typeErr
  | .valueE => .rawValueErr

/-- Zero value of a dtype (what a zero-filled memmap record holds). -/
def defVal : DType → Val
  | .dInt => .i 0
  | .dStr => .s ""

/-- A numpy array: shape plus row-major flat data. -/
structure NDArr (α : Type) where
  shape : List Nat
  data : List α
deriving DecidableEq, Repr

namespace NDArr

/-- `arr.ndim`. -/
def ndim (a : NDArr α) : Nat := a.shape.length

/-- `len(arr)`: length of the first axis. -/
def len (a : NDArr α) : Nat := a.shape.headD 0

/-- `np.squeeze`: drop all axes of extent one (row-major flat data is
unchanged). -/
def squeeze (a : NDArr α) : NDArr α := ⟨a.shape.filter (· ≠ 1), a.data⟩

/-- `np.expand_dims(arr, axis=0)`. -/
def expand0 (a : NDArr α) : NDArr α := ⟨1 :: a.shape, a.data⟩

/-- Row-major flat index of a multi-index. -/
def flattenIx (shape ix : List Nat) : Nat :=
  (shape.zip ix).foldl (fun acc p => acc * p.1 + p.2) 0

/-- Multi-index of a row-major flat index. -/
def unflatten : List Nat → Nat → List Nat
  | [], _ => []
  | _ :: rest, i => i / rest.prod :: unflatten rest (i % rest.prod)

/-- `arr.T`: reverse all axes, permuting the flat data accordingly. -/
def transpose [Inhabited α] (a : NDArr α) : NDArr α :=
  ⟨a.shape.reverse,
   (List.range a.shape.prod).map (fun i =>
      a.data.getD (flattenIx a.shape ((unflatten a.shape.reverse i).reverse)) default)⟩

end NDArr

/-- A data argument to `modify`: `None`, or a value with a flag recording
whether it is a genuine `np.ndarray` (`true`) or a plain nested list
(`false`) — `_check_data_input` tests `type(arr) is np.ndarray`. -/
abbrev DArg := Option (Bool × NDArr Int)

/-- The structured-record schema (`arch_dtype`): the activity/adjacency
group is determined by `n_node`; `layers` holds the declared layer fields
in order. -/
structure ArchDtype where
  n_node : Nat
  layers : List (String × DType)
deriving DecidableEq, Repr

/-- One observation record of the dataset. `activity` has `n_node`
entries, `adjacency` is the flat row-major `n_node × n_node` matrix, and
`layers` holds one value per declared layer field, in schema order. -/
structure Obs where
  activity : List Int
  adjacency : List Int
  layers : List Val
deriving DecidableEq, Repr

instance : Inhabited Obs := ⟨⟨[], [], []⟩⟩

/-- The zero-filled record a freshly extended memmap region holds. -/
def zeroObs (d : ArchDtype) : Obs :=
  ⟨List.replicate d.n_node 0, List.replicate (d.n_node * d.n_node) 0,
   d.layers.map (fun p => defVal p.2)⟩

/-- The `node_id` array of a definition: its dtype kind (string or not),
its shape, and its identifiers. -/
structure NodeArr where
  dtypeIsStr : Bool
  shape : List Nat
  data : List String
deriving DecidableEq, Repr

/-- The persisted definition metadata (`node_id`, `n_node`, `arch_dtype`)
written by `_io_arch_def`. -/
structure DefRec where
  node_id : NodeArr
  n_node : Nat
  arch_dtype : ArchDtype
deriving DecidableEq, Repr

/-- The filesystem: definition metadata files and dataset files, as
association lists from path to content (most recent binding first). -/
structure FS where
  defs : List (String × DefRec)
  dats : List (String × List Obs)
deriving DecidableEq, Repr

/-- An opened `GraphArch` object: the attributes `_io_arch_def` sets, the
dataset path, the current length of the read-only memmap view, and the
`data_new` transience flag. -/
structure Arch where
  node_id : NodeArr
  n_node : Nat
  arch_dtype : ArchDtype
  datPath : String
  viewLen : Nat
  data_new : Bool
deriving DecidableEq, Repr

/-- Definition-metadata path `'{}/{}.{}.npy'.format(arch_dir, cstr_def, arch_name)`. -/
def defPath (dir nm : String) : String :=
  dir ++ "/mlplexus.graph.GraphArch.Def." ++ nm ++ ".npy"

/-- Dataset path `'{}/{}.{}.npy'.format(arch_dir, cstr_dat, arch_name)`. -/
def datPath (dir nm : String) : String :=
  dir ++ "/mlplexus.graph.GraphArch.Dat." ++ nm ++ ".npy"

/-- `GraphArch._io_arch_dat`: memmap the dataset file if it exists
(read-only, `data_new = False`); otherwise create it with one zero-filled
record on disk, reopen as an empty view, and mark it transient. -/
def ioArchDat (fs : FS) (qp : String) (r : DefRec) (w : List String) :
    Except Err (Arch × FS × List String) :=
  match fs.dats.lookup qp with
  | some content =>
      .ok (⟨r.node_id, r.n_node, r.arch_dtype, qp, content.length, false⟩, fs, w)
  | none =>
      .ok (⟨r.node_id, r.n_node, r.arch_dtype, qp, 0, true⟩,
           { fs with dats := (qp, [zeroObs r.arch_dtype]) :: fs.dats }, w)

/-- The node-id handling and schema assembly of the create path, with the
source's exact (inverted) branch structure for the dtype and flatness
warnings: a non-string dtype or a non-flat shape only warns, while the
conversion and the flattening run in the opposite (no-op) branches.
Returns the definition record to persist and the warnings emitted. -/
def mkDefRec (nid0 : NodeArr) (spec : List (String × DType)) :
    DefRec × List String :=
  let st1 :=
    if nid0.dtypeIsStr = false then (nid0, ["warn-node-id-str"])
    else ({ nid0 with dtypeIsStr := true }, ([] : List String))
  let st2 :=
    if st1.1.shape.length ≠ 1 then (st1.1, ["warn-node-id-flat"])
    else ({ st1.1 with shape := [st1.1.shape.prod] }, ([] : List String))
  let n := st2.1.shape.headD 0
  (⟨st2.1, n, ⟨n, spec⟩⟩, st1.2 ++ st2.2)

/-- `GraphArch.__init__`: validate name/directory, then either create a new
definition (validating `node_id` and `layer_id`) or load the existing one
(ignoring all other arguments), and finally open the dataset.  The
returned list collects the emitted warnings.  A `layer_id` argument is
`none` for `None`/non-convertible input and `some (ok, spec)` otherwise,
where `ok = false` marks a value `np.dtype` rejects. -/
def construct (fs : FS) (nm? dir? : Option String)
    (node_id? : Option (Bool × NodeArr))
    (layer_id? : Option (Bool × List (String × DType))) :
    Except Err (Arch × FS × List String) :=
  match nm?, dir? with
  | some nm, some dir =>
      let dp := defPath dir nm
      let qp := datPath dir nm
      match fs.defs.lookup dp with
      | none =>
          match node_id? with
          | some (true, nid0) =>
              match layer_id? with
              | some (true, spec) =>
                  let pr := mkDefRec nid0 spec
                  ioArchDat { fs with defs := (dp, pr.1) :: fs.defs } qp pr.1
                    pr.2
              | _ => .error .typeErr
          | _ => .error .typeErr
      | some r => ioArchDat fs qp r []
  | _, _ => .error .typeErr

/-- `GraphArch.__del__`: if the store is still transient, best-effort
delete of the backing file.  `delOk` models whether the `os.remove` call
succeeds; either way the destructor returns normally (the `except` clause
swallows every failure). -/
def release (delOk : Bool) (a : Arch) (fs : FS) : FS :=
  if a.data_new then
    (if delOk then { fs with dats := fs.dats.filter (fun q => q.1 != a.datPath) }
     else fs)
  else fs

/-- Leading-dimension count an argument contributes to the append-size
inference: `len(arr)` when the argument is a real `np.ndarray` with
`ndim > 1`, and `0` otherwise (also for plain lists and `None`). -/
def impliedCount : Option (Bool × NDArr α) → Nat
  | none => 0
  | some (isND, a) => if isND then (if 1 < a.ndim then a.len else 0) else 0

/-- Arguments of `GraphArch.modify`. -/
structure MArgs where
  obs_ix : Option (NDArr Nat)
  activity : DArg
  adjacency : DArg
  layers : List (String × Bool × NDArr Val)
deriving DecidableEq, Repr

/-- Append-size inference of `_check_data_input`: when `obs_ix` is `None`,
the new indices are the contiguous run of `n_obs` indices starting at the
current length, where `n_obs` is the largest leading dimension contributed
by the supplied arguments; `n_obs = 0` raises `mlPlexusValueError`. -/
def inferObs (curr_len : Nat) (m : MArgs) : Except Err (NDArr Nat) :=
  match m.obs_ix with
  | some a => .ok a
  | none =>
      let counts := [impliedCount m.activity, impliedCount m.adjacency] ++
        m.layers.map (fun p => impliedCount (some p.2))
      let n_obs := counts.foldl max 0
      if 0 < n_obs then .ok ⟨[n_obs], List.range' curr_len n_obs⟩
      else .error .valueErr

/-- `obs_ix` normalization: squeeze, promote a scalar to a length-one
vector, and require the result to be one-dimensional. -/
def normalizeIx (a : NDArr Nat) : Except Err (NDArr Nat) :=
  let s1 := a.squeeze
  let s2 := if s1.ndim = 0 then s1.expand0 else s1
  if s2.ndim = 1 then .ok s2 else .error .valueErr

/-- `arr_activity` normalization: squeeze, promote a vector to one
observation, then require shape `(len(obs_ix), n_node)`, attempting one
transpose before failing. -/
def checkActivity (nIx n_node : Nat) : DArg → Except Err (Option (NDArr Int))
  | none => .ok none
  | some (_, a0) =>
      let a1 := a0.squeeze
      let a2 := if a1.ndim = 1 then a1.expand0 else a1
      if a2.shape = [nIx, n_node] then .ok (some a2)
      else
        let a3 := a2.transpose
        if a3.shape = [nIx, n_node] then .ok (some a3) else .error .valueErr

/-- `arr_adjacency` normalization: squeeze; a two-dimensional array must be
square and is promoted to one observation; the result must have shape
`(len(obs_ix), n_node, n_node)`. -/
def checkAdjacency (nIx n_node : Nat) : DArg → Except Err (Option (NDArr Int))
  | none => .ok none
  | some (_, a0) =>
      let a1 := a0.squeeze
      if a1.ndim = 2 then
        if a1.shape.headD 0 = a1.shape.getD 1 0 then
          let a2 := a1.expand0
          if a2.shape = [nIx, n_node, n_node] then .ok (some a2)
          else .error .valueErr
        else .error .valueErr
      else
        if a1.shape = [nIx, n_node, n_node] then .ok (some a1)
        else .error .valueErr

/-- Layer-data validation loop: undeclared names are dropped with a
warning; declared names are cast to the field dtype (a `TypeError`
failure is caught and re-raised as `mlPlexusTypeError`, a `ValueError`
failure propagates uncaught), squeezed, scalar-promoted, and must have
shape `(len(obs_ix),)`. -/
def checkLayers (dt : ArchDtype) (nIx : Nat) :
    List (String × Bool × NDArr Val) →
    Except Err (List (String × List Val) × List String)
  | [] => .ok ([], [])
  | (key, _, a0) :: rest =>
      match dt.layers.lookup key with
      | none =>
          match checkLayers dt nIx rest with
          | .ok (ks, ws) => .ok (ks, ("warn-ignoring-layer-" ++ key) :: ws)
          | .error e => .error e
      | some dty =>
          match a0.data.mapM (castTo dty) with
          | .error ce => .error (castFailErr ce)
          | .ok cdata =>
              let s1 := (⟨a0.shape, cdata⟩ : NDArr Val).squeeze
              let s2 := if s1.ndim = 0 then s1.expand0 else s1
              if s2.shape = [nIx] then
                match checkLayers dt nIx rest with
                | .ok (ks, ws) => .ok ((key, s2.data) :: ks, ws)
                | .error e => .error e
              else .error .valueErr

/-- `GraphArch._check_data_input` in full: infer/normalize `obs_ix`, then
validate activity, adjacency and layer data in the source order. -/
def checkDataInput (a : Arch) (m : MArgs) :
    Except Err (NDArr Nat × Option (NDArr Int) × Option (NDArr Int) ×
                List (String × List Val) × List String) :=
  match inferObs a.viewLen m with
  | .error e => .error e
  | .ok ixRaw =>
      match normalizeIx ixRaw with
      | .error e => .error e
      | .ok ixArr =>
          match checkActivity ixArr.len a.n_node m.activity with
          | .error e => .error e
          | .ok act =>
              match checkAdjacency ixArr.len a.n_node m.adjacency with
              | .error e => .error e
              | .ok adj =>
                  match checkLayers a.arch_dtype ixArr.len m.layers with
                  | .error e => .error e
                  | .ok (lays, ws) => .ok (ixArr, act, adj, lays, ws)

/-- Row `p` of a row-major matrix with `n` columns. -/
def rowOf (n : Nat) (d : List Int) (p : Nat) : List Int :=
  (d.drop (p * n)).take n

/-- Fancy assignment `field[obs_ix] = values`: write position `p` of the
supplied data into record `ix[p]`, in order. -/
def writeFieldFrom (g : Nat → Obs → Obs) : Nat → List Nat → List Obs → List Obs
  | _, [], f => f
  | p, i :: rest, f => writeFieldFrom g (p + 1) rest (f.set i (g p (f.getD i default)))

/-- Write a per-record update `g` at every index of `ix` (positions count
from zero). -/
def writeField (g : Nat → Obs → Obs) (ix : List Nat) (f : List Obs) : List Obs :=
  writeFieldFrom g 0 ix f

/-- `dataset['graph']['activity'][obs_ix, :] = arr_activity`. -/
def writeAct (n : Nat) (ix : List Nat) (d : List Int) : List Obs → List Obs :=
  writeField (fun p o => { o with activity := rowOf n d p }) ix

/-- `dataset['graph']['adjacency'][obs_ix, :, :] = arr_adjacency`. -/
def writeAdj (n : Nat) (ix : List Nat) (d : List Int) : List Obs → List Obs :=
  writeField (fun p o => { o with adjacency := rowOf (n * n) d p }) ix

/-- `dataset['layers'][key][obs_ix] = layer_data[key]` for the layer at
schema position `pos`. -/
def writeLayer (pos : Nat) (ix : List Nat) (vals : List Val) : List Obs → List Obs :=
  writeField (fun p o => { o with layers := o.layers.set pos (vals.getD p default) }) ix

/-- Write every validated layer field, each at its schema position. -/
def writeLayers (names : List (String × DType)) (ix : List Nat) :
    List (String × List Val) → List Obs → List Obs
  | [], f => f
  | (key, vals) :: rest, f =>
      writeLayers names ix rest
        (writeLayer (names.findIdx (fun p => p.1 == key)) ix vals f)

/-- Reopen the memmap at least `n` records long: extending zero-fills, as
`np.memmap(..., mode='r+', shape=(n,))` does on a shorter file. -/
def ensureLen (n : Nat) (z : Obs) (f : List Obs) : List Obs :=
  f ++ List.replicate (n - f.length) z

/-- `GraphArch.modify`: validate all inputs, then (when any index was
resolved) reopen the dataset writable — grown to `max(obs_ix) + 1` records
when appending — write the supplied fields at the resolved indices, flush,
and reopen read-only; finally clear the transience flag. -/
def modify (a : Arch) (fs : FS) (m : MArgs) :
    Except Err (Arch × FS × List String) :=
  match checkDataInput a m with
  | .error e => .error e
  | .ok (ixArr, act, adj, lays, ws) =>
      if 0 < ixArr.len then
        match fs.dats.lookup a.datPath with
        | none => .error .valueErr
        | some f =>
            let mx := ixArr.data.foldl max 0
            let f1 := ensureLen (mx + 1) (zeroObs a.arch_dtype) f
            let f2 := match act with
              | some arr => writeAct a.n_node ixArr.data arr.data f1
              | none => f1
            let f3 := match adj with
              | some arr => writeAdj a.n_node ixArr.data arr.data f2
              | none => f2
            let f4 := writeLayers a.arch_dtype.layers ixArr.data lays f3
            .ok ({ a with viewLen := f4.length, data_new := false },
                 { fs with dats := (a.datPath, f4) :: fs.dats }, ws)
      else
        .ok ({ a with data_new := false }, fs, ws)

/-- A `modify` call with Python exception semantics: on a raised error the
object and the filesystem are left exactly as they were. -/
def runModify (a : Arch) (fs : FS) (m : MArgs) :
    Except Err (Arch × List String) × FS :=
  match modify a fs m with
  | .ok (a2, fs2, w) => (.ok (a2, w), fs2)
  | .error e => (.error e, fs)

end MLPlexus

namespace MLPlexus

/-- Setting one record leaves every other position unchanged. -/
theorem getD_set_ne {α : Type} [Inhabited α] (l : List α) (i j : Nat) (x : α)
    (h : j ≠ i) : (l.set i x).getD j default = l.getD j default := by
  rw [List.getD_eq_getD_get?, List.getD_eq_getD_get?, List.get?_eq_getElem?,
    List.get?_eq_getElem?, List.getElem?_set_ne (Ne.symm h)]

/-- Setting an in-range record makes that position hold the new value. -/
theorem getD_set_self {α : Type} [Inhabited α] (l : List α) (i : Nat) (x : α)
    (h : i < l.length) : (l.set i x).getD i default = x := by
  rw [List.getD_eq_getD_get?, List.get?_eq_getElem?, List.getElem?_set_eq_of_lt x h]
  rfl

/-- A fancy-indexed write never changes the number of records. -/
theorem writeFieldFrom_length (g : Nat → Obs → Obs) :
    ∀ (ix : List Nat) (p : Nat) (f : List Obs),
      (writeFieldFrom g p ix f).length = f.length
  | [], _, _ => rfl
  | i :: rest, p, f => by
      rw [writeFieldFrom, writeFieldFrom_length g rest (p + 1), List.length_set]

/-- A fancy-indexed write leaves records at indices outside `ix` unchanged. -/
theorem writeFieldFrom_getD_notMem (g : Nat → Obs → Obs) :
    ∀ (ix : List Nat) (p : Nat) (f : List Obs) (j : Nat), j ∉ ix →
      (writeFieldFrom g p ix f).getD j default = f.getD j default
  | [], _, _, _, _ => rfl
  | i :: rest, p, f, j, hj => by
      rw [writeFieldFrom,
        writeFieldFrom_getD_notMem g rest (p + 1) _ j
          (fun h => hj (List.mem_cons_of_mem _ h)),
        getD_set_ne _ _ _ _ (fun h => hj (by rw [h]; exact List.mem_cons_self i rest))]

/-- A fancy-indexed write whose per-record update preserves a projection
preserves that projection at every index. -/
theorem writeFieldFrom_proj {β : Type} (φ : Obs → β) (g : Nat → Obs → Obs)
    (hg : ∀ p o, φ (g p o) = φ o) :
    ∀ (ix : List Nat) (p : Nat) (f : List Obs) (j : Nat),
      φ ((writeFieldFrom g p ix f).getD j default) = φ (f.getD j default)
  | [], _, _, _ => rfl
  | i :: rest, p, f, j => by
      rw [writeFieldFrom, writeFieldFrom_proj φ g hg rest (p + 1)]
      by_cases hji : j = i
      · subst hji
        by_cases hlt : j < f.length
        · rw [getD_set_self _ _ _ hlt, hg]
        · rw [List.set_eq_of_length_le (Nat.le_of_not_lt hlt)]
      · rw [getD_set_ne _ _ _ _ hji]

/-- A fancy-indexed write over pairwise-distinct in-range indices stores,
at the `q`-th index, the update of position `q` applied to the old record. -/
theorem writeFieldFrom_getD_write (g : Nat → Obs → Obs) :
    ∀ (ix : List Nat) (p : Nat) (f : List Obs), ix.Nodup →
      (∀ i ∈ ix, i < f.length) → ∀ q, q < ix.length →
        (writeFieldFrom g p ix f).getD (ix.getD q 0) default
          = g (p + q) (f.getD (ix.getD q 0) default)
  | [], _, _, _, _, _, hq => absurd hq (by simp)
  | i :: rest, p, f, hnd, hrange, 0, _ => by
      obtain ⟨hni, _⟩ := List.nodup_cons.mp hnd
      rw [writeFieldFrom, List.getD_cons_zero,
        writeFieldFrom_getD_notMem g rest (p + 1) _ i hni,
        getD_set_self _ _ _ (hrange i (List.mem_cons_self i rest)), Nat.add_zero]
  | i :: rest, p, f, hnd, hrange, q + 1, hq => by
      obtain ⟨hni, hndr⟩ := List.nodup_cons.mp hnd
      rw [writeFieldFrom, List.getD_cons_succ]
      have hqlen : q < rest.length := by simpa using hq
      have hmem : rest.getD q 0 ∈ rest := by
        rw [List.getD_eq_getElem rest 0 hqlen]; exact List.getElem_mem hqlen
      have hrange2 : ∀ i2 ∈ rest, i2 < (f.set i (g p (f.getD i default))).length := by
        intro i2 h2; rw [List.length_set]; exact hrange i2 (List.mem_cons_of_mem _ h2)
      rw [writeFieldFrom_getD_write g rest (p + 1) _ hndr hrange2 q hqlen,
        getD_set_ne _ _ _ _ (fun h => hni (by rw [← h]; exact hmem))]
      congr 1
      omega

/-- Writing the validated layer fields never changes the record count. -/
theorem writeLayers_length (names : List (String × DType)) (ix : List Nat) :
    ∀ (lays : List (String × List Val)) (f : List Obs),
      (writeLayers names ix lays f).length = f.length
  | [], _ => rfl
  | (k, v) :: rest, f => by
      rw [writeLayers, writeLayers_length names ix rest, writeLayer, writeField,
        writeFieldFrom_length]

/-- Writing the validated layer fields leaves records outside `ix` unchanged. -/
theorem writeLayers_getD_notMem (names : List (String × DType)) (ix : List Nat) :
    ∀ (lays : List (String × List Val)) (f : List Obs) (j : Nat), j ∉ ix →
      (writeLayers names ix lays f).getD j default = f.getD j default
  | [], _, _, _ => rfl
  | (k, v) :: rest, f, j, hj => by
      rw [writeLayers, writeLayers_getD_notMem names ix rest _ j hj, writeLayer,
        writeField, writeFieldFrom_getD_notMem _ _ _ _ _ hj]

/-- Layer writes never touch the activity of any record. -/
theorem writeLayers_proj_act (names : List (String × DType)) (ix : List Nat) :
    ∀ (lays : List (String × List Val)) (f : List Obs) (j : Nat),
      ((writeLayers names ix lays f).getD j default).activity
        = (f.getD j default).activity
  | [], _, _ => rfl
  | (k, v) :: rest, f, j => by
      rw [writeLayers, writeLayers_proj_act names ix rest, writeLayer, writeField]
      exact writeFieldFrom_proj (fun o => o.activity)
        (fun p2 o => { o with
          layers := o.layers.set (names.findIdx (fun q => q.1 == k)) (v.getD p2 default) })
        (fun _ _ => rfl) ix 0 f j

/-- Layer writes never touch the adjacency of any record. -/
theorem writeLayers_proj_adj (names : List (String × DType)) (ix : List Nat) :
    ∀ (lays : List (String × List Val)) (f : List Obs) (j : Nat),
      ((writeLayers names ix lays f).getD j default).adjacency
        = (f.getD j default).adjacency
  | [], _, _ => rfl
  | (k, v) :: rest, f, j => by
      rw [writeLayers, writeLayers_proj_adj names ix rest, writeLayer, writeField]
      exact writeFieldFrom_proj (fun o => o.adjacency)
        (fun p2 o => { o with
          layers := o.layers.set (names.findIdx (fun q => q.1 == k)) (v.getD p2 default) })
        (fun _ _ => rfl) ix 0 f j

/-- Layer writes whose target schema positions all avoid position `j`
leave the layer value at position `j` of every record unchanged. -/
theorem writeLayers_proj_layer (names : List (String × DType)) (ix : List Nat)
    (j : Nat) :
    ∀ (lays : List (String × List Val)) (f : List Obs) (i : Nat),
      (∀ e ∈ lays, names.findIdx (fun p => p.1 == e.1) ≠ j) →
      ((writeLayers names ix lays f).getD i default).layers.getD j default
        = (f.getD i default).layers.getD j default
  | [], _, _, _ => rfl
  | (k, v) :: rest, f, i, h => by
      rw [writeLayers,
        writeLayers_proj_layer names ix j rest _ i
          (fun e he => h e (List.mem_cons_of_mem _ he)), writeLayer, writeField]
      exact writeFieldFrom_proj (fun o => o.layers.getD j default)
        (fun p2 o => { o with
          layers := o.layers.set (names.findIdx (fun q => q.1 == k)) (v.getD p2 default) })
        (fun _ o => getD_set_ne _ _ _ _
          (Ne.symm (h (k, v) (List.mem_cons_self _ _)))) ix 0 f i

/-- Folding `max` over a contiguous index run yields its last element. -/
theorem foldl_max_range' :
    ∀ (k L a : Nat), 1 ≤ k →
      (List.range' L k).foldl max a = max a (L + k - 1)
  | 1, L, a, _ => by simp [List.range']
  | k + 2, L, a, _ => by
      rw [List.range'_succ, List.foldl_cons,
        foldl_max_range' (k + 1) (L + 1) (max a L) (by omega)]
      omega

/-- Folding `max` over a list of zeroes returns the accumulator. -/
theorem foldl_max_zeros :
    ∀ (l : List Nat) (a : Nat), (∀ x ∈ l, x = 0) → l.foldl max a = a
  | [], _, _ => rfl
  | x :: xs, a, h => by
      rw [List.foldl_cons, h x (List.mem_cons_self x xs), Nat.max_zero]
      exact foldl_max_zeros xs a (fun y hy => h y (List.mem_cons_of_mem _ hy))

/-- Reading every position of a list back in order reproduces the list. -/
theorem map_getD_range {α : Type} [Inhabited α] (d : List α) :
    (List.range d.length).map (fun i => d.getD i default) = d := by
  apply List.ext_getElem
  · simp
  · intro n h1 h2
    simp only [List.getElem_map, List.getElem_range]
    exact List.getD_eq_getElem d default h2

/-- Transposing a one-row matrix yields the one-column matrix with the same
row-major data. -/
theorem transpose_row (k : Nat) (d : List Int) (hd : d.length = k) :
    NDArr.transpose ⟨[1, k], d⟩ = ⟨[k, 1], d⟩ := by
  simp only [NDArr.transpose, NDArr.mk.injEq]
  refine ⟨by simp, ?_⟩
  have hp : ([1, k] : List Nat).prod = k := by simp
  rw [hp]
  have hfun :
      (fun i => d.getD
        (NDArr.flattenIx [1, k]
          ((NDArr.unflatten ([1, k] : List Nat).reverse i).reverse)) default)
        = fun i => d.getD i default := by
    funext i
    congr 1
    simp only [NDArr.unflatten, NDArr.flattenIx, List.reverse_cons, List.reverse_nil,
      List.nil_append, List.cons_append, List.prod_cons, List.prod_nil, Nat.div_one,
      Nat.mod_one, List.zip_cons_cons, List.zip_nil_right, List.foldl_cons,
      List.foldl_nil, Nat.mul_one]
    omega
  rw [hfun, ← hd, map_getD_range]

/-- After removing every binding of a key, looking it up fails. -/
theorem lookup_filter_ne {β : Type} (p : String) :
    ∀ (l : List (String × β)), (l.filter (fun q => q.1 != p)).lookup p = none
  | [] => rfl
  | (k, v) :: xs => by
      simp only [List.filter_cons]
      by_cases hk : k = p
      · have h1 : ((k, v).1 != p) = false := by simp [hk]
        rw [h1]
        simpa using lookup_filter_ne p xs
      · have h1 : ((k, v).1 != p) = true := by simpa using hk
        rw [h1]
        simp only [if_true]
        rw [List.lookup_cons]
        have h2 : (p == k) = false := by simpa using Ne.symm hk
        simp only [h2]
        exact lookup_filter_ne p xs

/-- Every layer field kept by validation was supplied by the caller. -/
theorem checkLayers_keys_sub (dt : ArchDtype) (nIx : Nat) :
    ∀ (ls : List (String × Bool × NDArr Val)) (ks : List (String × List Val))
      (ws : List String), checkLayers dt nIx ls = .ok (ks, ws) →
      ∀ e ∈ ks, ∃ e2 ∈ ls, e2.1 = e.1
  | [], ks, ws, h, e, he => by
      simp only [checkLayers] at h
      cases h
      cases he
  | (key, b, a0) :: rest, ks, ws, h, e, he => by
      rw [checkLayers] at h
      cases hk : dt.layers.lookup key with
      | none =>
          simp only [hk] at h
          cases hr : checkLayers dt nIx rest with
          | error e2 =>
              simp only [hr] at h
              exact Except.noConfusion h
          | ok pr =>
              obtain ⟨ks2, ws2⟩ := pr
              simp only [hr] at h
              obtain ⟨h1, _⟩ := Prod.mk.injEq .. ▸ Except.ok.inj h
              subst h1
              obtain ⟨e2, he2, heq⟩ :=
                checkLayers_keys_sub dt nIx rest ks2 ws2 hr e he
              exact ⟨e2, List.mem_cons_of_mem _ he2, heq⟩
      | some dty =>
          simp only [hk] at h
          cases hc : a0.data.mapM (castTo dty) with
          | error ce =>
              simp only [hc] at h
              exact Except.noConfusion h
          | ok cdata =>
              simp only [hc] at h
              by_cases hs :
                  (if ((⟨a0.shape, cdata⟩ : NDArr Val).squeeze.ndim = 0) then
                    (⟨a0.shape, cdata⟩ : NDArr Val).squeeze.expand0
                  else (⟨a0.shape, cdata⟩ : NDArr Val).squeeze).shape = [nIx]
              · rw [if_pos hs] at h
                cases hr : checkLayers dt nIx rest with
                | error e2 =>
                    simp only [hr] at h
                    exact Except.noConfusion h
                | ok pr =>
                    obtain ⟨ks2, ws2⟩ := pr
                    simp only [hr] at h
                    obtain ⟨h1, _⟩ := Prod.mk.injEq .. ▸ Except.ok.inj h
                    subst h1
                    rcases List.mem_cons.mp he with hh | hh
                    · exact ⟨(key, b, a0), List.mem_cons_self _ _, by rw [hh]⟩
                    · obtain ⟨e2, he2, heq⟩ :=
                        checkLayers_keys_sub dt nIx rest ks2 ws2 hr e hh
                      exact ⟨e2, List.mem_cons_of_mem _ he2, heq⟩
              · rw [if_neg hs] at h
                exact Except.noConfusion h

end MLPlexus

namespace MLPlexus

/-- Folding `max` over elements all bounded by the accumulator returns the
accumulator. -/
theorem foldl_max_le :
    ∀ (l : List Nat) (a : Nat), (∀ x ∈ l, x ≤ a) → l.foldl max a = a
  | [], _, _ => rfl
  | x :: xs, a, h => by
      rw [List.foldl_cons, Nat.max_eq_left (h x (List.mem_cons_self x xs))]
      exact foldl_max_le xs a (fun y hy => h y (List.mem_cons_of_mem _ hy))

/-- The reopened dataset holds `max n (old length)` records. -/
theorem ensureLen_length (n : Nat) (z : Obs) (f : List Obs) :
    (ensureLen n z f).length = max n f.length := by
  simp only [ensureLen, List.length_append, List.length_replicate]
  omega

/-- Reopening the dataset leaves the existing records in place. -/
theorem ensureLen_getD (n : Nat) (z : Obs) (f : List Obs) (j : Nat)
    (h : j < f.length) : (ensureLen n z f).getD j default = f.getD j default :=
  List.getD_append _ _ _ _ h

/-- Normalizing a one-dimensional index array is the identity. -/
theorem normalizeIx_vec (m : Nat) (l : List Nat) :
    normalizeIx ⟨[m], l⟩ = .ok ⟨[m], l⟩ := by
  by_cases hm : m = 1
  · subst hm
    simp [normalizeIx, NDArr.squeeze, NDArr.ndim, NDArr.expand0]
  · simp [normalizeIx, NDArr.squeeze, NDArr.ndim, NDArr.expand0, hm]

/-- Shape normalization of an activity array supplied as `(k, n_node)`:
unless `k = n_node = 1` (where `squeeze` collapses both axes), the data
survives unchanged, transposed back into place when `n_node = 1`. -/
theorem checkActivity_kn (k n : Nat) (d : List Int) (b : Bool)
    (hnot : ¬(k = 1 ∧ n = 1)) (hd : d.length = k * n) :
    ∃ A : NDArr Int,
      checkActivity k n (some (b, ⟨[k, n], d⟩)) = .ok (some A) ∧ A.data = d := by
  by_cases hk1 : k = 1
  · subst hk1
    have hn1 : n ≠ 1 := fun h => hnot ⟨rfl, h⟩
    refine ⟨⟨[1, n], d⟩, ?_, rfl⟩
    simp [checkActivity, NDArr.squeeze, NDArr.ndim, NDArr.expand0, hn1]
  · by_cases hn1 : n = 1
    · subst hn1
      refine ⟨⟨[k, 1], d⟩, ?_, rfl⟩
      have ht := transpose_row k d (by omega)
      simp [checkActivity, NDArr.squeeze, NDArr.ndim, NDArr.expand0, hk1, ht]
    · refine ⟨⟨[k, n], d⟩, ?_, rfl⟩
      simp [checkActivity, NDArr.squeeze, NDArr.ndim, hk1, hn1]

/-- Append-size inference when only activity is supplied as a `(k, n)`
ndarray and any layer argument implies at most `k` observations: the new
indices are the `k` positions after the current length. -/
theorem inferObs_activity (L k n : Nat) (d : List Int)
    (lay : List (String × Bool × NDArr Val)) (hk : 1 ≤ k)
    (hlay : ∀ e ∈ lay, impliedCount (some e.2) ≤ k) :
    inferObs L ⟨none, some (true, ⟨[k, n], d⟩), none, lay⟩ =
      .ok ⟨[k], List.range' L k⟩ := by
  have h1 : impliedCount (some (true, (⟨[k, n], d⟩ : NDArr Int))) = k := by
    simp [impliedCount, NDArr.ndim, NDArr.len]
  have hN : ([impliedCount (some (true, (⟨[k, n], d⟩ : NDArr Int))),
      impliedCount (none : DArg)]
      ++ List.map (fun p => impliedCount (some p.2)) lay).foldl max 0 = k := by
    rw [List.cons_append, List.cons_append, List.nil_append, List.foldl_cons,
      List.foldl_cons, h1]
    have h3 : max (max 0 k) (impliedCount (none : DArg)) = k := by
      simp only [impliedCount]
      omega
    rw [h3]
    refine foldl_max_le _ k ?_
    intro x hx
    obtain ⟨e, he, hex⟩ := List.mem_map.mp hx
    exact hex ▸ hlay e he
  simp only [inferObs, hN]
  rw [if_pos (by omega : (0 : Nat) < k)]

/-- The append path of `modify` with activity supplied as a `(k, n_node)`
ndarray (plus layer arguments that all get dropped by validation): `k`
records are appended after the current view, the supplied rows land in
order, and nothing else about the existing records changes. -/
theorem modify_append_activity (a : Arch) (fs : FS) (f : List Obs) (k : Nat)
    (d : List Int) (lay : List (String × Bool × NDArr Val)) (ws : List String)
    (hf : fs.dats.lookup a.datPath = some f)
    (hflen : f.length ≤ a.viewLen + k)
    (hk : 1 ≤ k) (hnot : ¬(k = 1 ∧ a.n_node = 1))
    (hd : d.length = k * a.n_node)
    (hlay : ∀ e ∈ lay, impliedCount (some e.2) ≤ k)
    (hchk : checkLayers a.arch_dtype k lay = .ok ([], ws)) :
    ∃ f2,
      modify a fs ⟨none, some (true, ⟨[k, a.n_node], d⟩), none, lay⟩ =
        .ok ({ a with viewLen := a.viewLen + k, data_new := false },
             { fs with dats := (a.datPath, f2) :: fs.dats }, ws) ∧
      f2.length = a.viewLen + k ∧
      (∀ p, p < k → f2.getD (a.viewLen + p) default
        = { (ensureLen (a.viewLen + k) (zeroObs a.arch_dtype) f).getD
              (a.viewLen + p) default with activity := rowOf a.n_node d p }) ∧
      (∀ j, j < f.length →
        (f2.getD j default).layers = (f.getD j default).layers) ∧
      (∀ j, j < f.length →
        (f2.getD j default).adjacency = (f.getD j default).adjacency) ∧
      (∀ j, j < f.length → j ∉ List.range' a.viewLen k →
        f2.getD j default = f.getD j default) := by
  have hinf := inferObs_activity a.viewLen k a.n_node d lay hk hlay
  have hnorm := normalizeIx_vec k (List.range' a.viewLen k)
  obtain ⟨A, hA, hAd⟩ := checkActivity_kn k a.n_node d true hnot hd
  have hlen1 : NDArr.len (⟨[k], List.range' a.viewLen k⟩ : NDArr Nat) = k := rfl
  have hcdi : checkDataInput a ⟨none, some (true, ⟨[k, a.n_node], d⟩), none, lay⟩
      = .ok (⟨[k], List.range' a.viewLen k⟩, some A, none, [], ws) := by
    simp only [checkDataInput, hinf, hnorm, hlen1, hA, checkAdjacency, hchk]
  set z := zeroObs a.arch_dtype with hz
  set f1 := ensureLen (a.viewLen + k) z f with hf1
  have hf1len : f1.length = a.viewLen + k := by
    rw [hf1, ensureLen_length]; omega
  have hmx : (List.range' a.viewLen k).foldl max 0 + 1 = a.viewLen + k := by
    rw [foldl_max_range' k a.viewLen 0 hk]; omega
  set f2 := writeAct a.n_node (List.range' a.viewLen k) d f1 with hf2
  have hf2len : f2.length = a.viewLen + k := by
    rw [hf2, writeAct, writeField, writeFieldFrom_length, hf1len]
  have hrange : ∀ i ∈ List.range' a.viewLen k, i < f1.length := by
    intro i hi
    rw [hf1len]
    exact (List.mem_range'_1.mp hi).2
  refine ⟨f2, ?_, hf2len, ?_, ?_, ?_, ?_⟩
  · simp only [modify, hcdi, hlen1, hf, hmx]
    rw [if_pos (by omega : (0 : Nat) < k)]
    simp only [writeLayers]
    rw [hAd, ← hf2, hf2len]
  · intro p hp
    have hnd : (List.range' a.viewLen k).Nodup := List.nodup_range' _ _
    have hq : p < (List.range' a.viewLen k).length := by
      rw [List.length_range']; exact hp
    have hgd : (List.range' a.viewLen k).getD p 0 = a.viewLen + p := by
      rw [List.getD_eq_getElem _ _ hq, List.getElem_range'_1]
    have := writeFieldFrom_getD_write
      (fun q o => { o with activity := rowOf a.n_node d q })
      (List.range' a.viewLen k) 0 f1 hnd hrange p hq
    rw [hgd] at this
    rw [hf2, writeAct, writeField, this, Nat.zero_add]
  · intro j hj
    rw [hf2, writeAct, writeField]
    rw [writeFieldFrom_proj (fun o => o.layers)
      (fun p o => { o with activity := rowOf a.n_node d p }) (fun _ _ => rfl)]
    rw [hf1, ensureLen_getD _ _ _ _ hj]
  · intro j hj
    rw [hf2, writeAct, writeField]
    rw [writeFieldFrom_proj (fun o => o.adjacency)
      (fun p o => { o with activity := rowOf a.n_node d p }) (fun _ _ => rfl)]
    rw [hf1, ensureLen_getD _ _ _ _ hj]
  · intro j hj hjm
    rw [hf2, writeAct, writeField, writeFieldFrom_getD_notMem _ _ _ _ _ hjm]
    rw [hf1, ensureLen_getD _ _ _ _ hj]

end MLPlexus

namespace MLPlexus

/-- A concrete schema with three nodes and one integer layer field. -/
def dt3 : ArchDtype := ⟨3, [("time", .dInt)]⟩

/-- A freshly created three-node store (as `construct` opens it). -/
def arch3 : Arch := ⟨⟨true, [3], ["A", "B", "C"]⟩, 3, dt3, "P", 0, true⟩

/-- The filesystem right after `arch3` was constructed. -/
def fs3 : FS := ⟨[], [("P", [zeroObs dt3])]⟩

/-- A concrete schema with one node and no layer fields. -/
def dt1 : ArchDtype := ⟨1, []⟩

/-- A freshly created one-node store. -/
def arch1 : Arch := ⟨⟨true, [1], ["A"]⟩, 1, dt1, "Q", 0, true⟩

/-- The filesystem right after `arch1` was constructed. -/
def fs1 : FS := ⟨[], [("Q", [zeroObs dt1])]⟩

/-- A concrete schema with two nodes and no layer fields. -/
def dt2 : ArchDtype := ⟨2, []⟩

/-- A freshly created two-node store. -/
def arch2 : Arch := ⟨⟨true, [2], ["A", "B"]⟩, 2, dt2, "R", 0, true⟩

/-- The filesystem right after `arch2` was constructed. -/
def fs2 : FS := ⟨[], [("R", [zeroObs dt2])]⟩

/-- C1, counterexample: on a store with `n_node = 1`, `modify` with
`obs_ix=None` and activity shaped `(1, 1)` raises `mlPlexusValueError`
instead of appending one observation — `np.squeeze` collapses the
`(1, 1)` array to a scalar, which then fails the `(n_obs, n_node)` shape
check.  So the claim is false as stated for `k = 1, n_node = 1`. -/
theorem c1_counterexample :
    runModify arch1 fs1 ⟨none, some (true, ⟨[1, 1], [7]⟩), none, []⟩
      = (.error .valueErr, fs1) := rfl

/-- C1 (amended): for every open store and every `k ≥ 1` with
`(k, n_node) ≠ (1, 1)`, `modify` with `obs_ix=None` and only activity
shaped `(k, n_node)` infers the contiguous index run
`viewLen, …, viewLen+k-1`, writes the supplied rows there, and leaves the
store with exactly `viewLen + k` observations. -/
theorem c1_append_amended (a : Arch) (fs : FS) (f : List Obs) (k : Nat)
    (d : List Int)
    (hf : fs.dats.lookup a.datPath = some f)
    (hflen : f.length ≤ a.viewLen + k)
    (hk : 1 ≤ k)
    (hnot : ¬(k = 1 ∧ a.n_node = 1))
    (hd : d.length = k * a.n_node) :
    inferObs a.viewLen ⟨none, some (true, ⟨[k, a.n_node], d⟩), none, []⟩
        = .ok ⟨[k], List.range' a.viewLen k⟩ ∧
    ∃ f2,
      runModify a fs ⟨none, some (true, ⟨[k, a.n_node], d⟩), none, []⟩
        = (.ok ({ a with viewLen := a.viewLen + k, data_new := false }, []),
           { fs with dats := (a.datPath, f2) :: fs.dats }) ∧
      f2.length = a.viewLen + k ∧
      (∀ p, p < k →
        (f2.getD (a.viewLen + p) default).activity = rowOf a.n_node d p) := by
  have hinf := inferObs_activity a.viewLen k a.n_node d [] hk
    (by intro e he; cases he)
  obtain ⟨f2, hmod, hlen, hwrite, _, _, _⟩ :=
    modify_append_activity a fs f k d [] [] hf hflen hk hnot hd
      (by intro e he; cases he) rfl
  refine ⟨hinf, f2, ?_, hlen, ?_⟩
  · simp only [runModify, hmod]
  · intro p hp
    rw [hwrite p hp]

/-- Witness for the amended C1 theorem: appending two observations of
activity to the fresh three-node store. -/
theorem c1_append_witness :
    inferObs arch3.viewLen
        ⟨none, some (true, ⟨[2, arch3.n_node], [1, 2, 3, 4, 5, 6]⟩), none, []⟩
        = .ok ⟨[2], List.range' arch3.viewLen 2⟩ ∧
    ∃ f2,
      runModify arch3 fs3
          ⟨none, some (true, ⟨[2, arch3.n_node], [1, 2, 3, 4, 5, 6]⟩), none, []⟩
        = (.ok ({ arch3 with viewLen := arch3.viewLen + 2, data_new := false }, []),
           { fs3 with dats := (arch3.datPath, f2) :: fs3.dats }) ∧
      f2.length = arch3.viewLen + 2 ∧
      (∀ p, p < 2 →
        (f2.getD (arch3.viewLen + p) default).activity
          = rowOf arch3.n_node [1, 2, 3, 4, 5, 6] p) :=
  c1_append_amended arch3 fs3 [zeroObs dt3] 2 [1, 2, 3, 4, 5, 6]
    (by decide) (by decide) (by decide) (by decide) (by decide)

/-- Ambiguous append: with `obs_ix=None` and no argument contributing a
leading dimension, `modify` raises `mlPlexusValueError` before touching
the store. -/
theorem ambiguousAppend (a : Arch) (fs : FS) (m : MArgs)
    (hobs : m.obs_ix = none)
    (hact : impliedCount m.activity = 0)
    (hadj : impliedCount m.adjacency = 0)
    (hlay : ∀ e ∈ m.layers, impliedCount (some e.2) = 0) :
    runModify a fs m = (.error .valueErr, fs) := by
  have hz : ([impliedCount m.activity, impliedCount m.adjacency]
      ++ List.map (fun p => impliedCount (some p.2)) m.layers).foldl max 0 = 0 := by
    refine foldl_max_zeros _ 0 ?_
    intro x hx
    rcases List.mem_append.mp hx with h | h
    · rcases List.mem_cons.mp h with h1 | h1
      · rw [h1, hact]
      · rcases List.mem_cons.mp h1 with h2 | h2
        · rw [h2, hadj]
        · cases h2
    · obtain ⟨e, he, hex⟩ := List.mem_map.mp h
      rw [← hex]
      exact hlay e he
  have hinf : inferObs a.viewLen m = .error .valueErr := by
    simp only [inferObs, hobs, hz]
    rfl
  simp only [runModify, modify, checkDataInput, hinf]

/-- C9: with `obs_ix=None` and no supplied array implying an observation
count (all contribute a leading dimension of zero), `modify` fails with
`mlPlexusValueError` and the store is untouched. -/
theorem c9_ambiguous_append (a : Arch) (fs : FS) (m : MArgs)
    (hobs : m.obs_ix = none)
    (hact : impliedCount m.activity = 0)
    (hadj : impliedCount m.adjacency = 0)
    (hlay : ∀ e ∈ m.layers, impliedCount (some e.2) = 0) :
    runModify a fs m = (.error .valueErr, fs) :=
  ambiguousAppend a fs m hobs hact hadj hlay

/-- Witness for C9: `modify()` with no data at all on the fresh store. -/
theorem c9_witness :
    runModify arch3 fs3 ⟨none, none, none, []⟩ = (.error .valueErr, fs3) :=
  c9_ambiguous_append arch3 fs3 ⟨none, none, none, []⟩ rfl rfl rfl
    (by intro e he; cases he)

/-- An argument that is not a real ndarray, or has at most one dimension,
contributes no observation count to the append-size inference. -/
theorem impliedCount_zero {α : Type} (b : Bool) (arr : NDArr α)
    (h : b = false ∨ arr.ndim ≤ 1) : impliedCount (some (b, arr)) = 0 := by
  rcases h with h | h
  · subst h; rfl
  · cases b
    · rfl
    · simp [impliedCount, Nat.not_lt.mpr h]

/-- C10: the append-size inference counts only genuine `np.ndarray`
arguments, so any call with `obs_ix=None` in which every supplied value is
a plain Python list (of any nested shape, even one that unambiguously
implies an observation count) or an array of at most one dimension raises
`mlPlexusValueError`. -/
theorem c10_list_not_counted (a : Arch) (fs : FS) (m : MArgs)
    (hobs : m.obs_ix = none)
    (hact : ∀ b arr, m.activity = some (b, arr) → b = false ∨ arr.ndim ≤ 1)
    (hadj : ∀ b arr, m.adjacency = some (b, arr) → b = false ∨ arr.ndim ≤ 1)
    (hlay : ∀ e ∈ m.layers, e.2.1 = false ∨ e.2.2.ndim ≤ 1) :
    runModify a fs m = (.error .valueErr, fs) := by
  refine ambiguousAppend a fs m hobs ?_ ?_ ?_
  · cases hma : m.activity with
    | none => rfl
    | some pr => exact impliedCount_zero pr.1 pr.2 (hact pr.1 pr.2 (by rw [hma]))
  · cases hma : m.adjacency with
    | none => rfl
    | some pr => exact impliedCount_zero pr.1 pr.2 (hadj pr.1 pr.2 (by rw [hma]))
  · intro e he
    exact impliedCount_zero e.2.1 e.2.2 (hlay e he)

/-- Witness for C10: activity supplied as the plain nested list
`[[1,2,3],[4,5,6]]` — shape `(2, 3)` would imply two observations, yet the
call still raises because the value is not an `np.ndarray`. -/
theorem c10_witness :
    runModify arch3 fs3 ⟨none, some (false, ⟨[2, 3], [1, 2, 3, 4, 5, 6]⟩), none, []⟩
      = (.error .valueErr, fs3) :=
  c10_list_not_counted arch3 fs3
    ⟨none, some (false, ⟨[2, 3], [1, 2, 3, 4, 5, 6]⟩), none, []⟩ rfl
    (by intro b arr h; cases h; exact Or.inl rfl)
    (by intro b arr h; cases h)
    (by intro e he; cases he)

/-- C3, counterexample: writing the non-numeric string `"x"` into the
integer `time` layer is a value that fails to cast to the field's
declared element type, yet the call does not raise a TypeError-kind
error — numpy's conversion failure for a string is a `ValueError`, which
the `except TypeError` clause at `graph.py:248` does not catch, so the
raw builtin `ValueError` propagates.  (The store is still left
unmodified.)  So the claim's error kind is false as stated. -/
theorem c3_counterexample :
    runModify arch3 fs3
        ⟨some ⟨[1], [0]⟩, none, none, [("time", false, ⟨[1], [.s "x"]⟩)]⟩
      = (.error .rawValueErr, fs3) := rfl

/-- C3 (amended): supplying a declared layer field with values whose
elementwise conversion to the field's dtype fails (alongside a
well-formed explicit `obs_ix` and nothing else) leaves the object and
the filesystem exactly as before the call — validation runs to
completion before any write — and raises the TypeError-kind
`mlPlexusTypeError` exactly when numpy's conversion failure is a
`TypeError` (e.g. `None` for an integer field); when the failure is a
`ValueError` (e.g. a non-numeric string for an integer field), the raw
builtin `ValueError` escapes the `except TypeError` handler instead. -/
theorem c3_layer_cast_errors (a : Arch) (fs : FS) (ids : List Nat)
    (key : String) (dty : DType) (b : Bool) (arr : NDArr Val) (ce : CastErr)
    (hkey : a.arch_dtype.layers.lookup key = some dty)
    (hcast : arr.data.mapM (castTo dty) = .error ce) :
    runModify a fs ⟨some ⟨[ids.length], ids⟩, none, none, [(key, b, arr)]⟩
      = (.error (castFailErr ce), fs) := by
  have hinf : inferObs a.viewLen
      ⟨some ⟨[ids.length], ids⟩, none, none, [(key, b, arr)]⟩
      = .ok ⟨[ids.length], ids⟩ := rfl
  have hnorm := normalizeIx_vec ids.length ids
  have hlay : checkLayers a.arch_dtype
      (NDArr.len (⟨[ids.length], ids⟩ : NDArr Nat)) [(key, b, arr)]
      = .error (castFailErr ce) := by
    simp only [checkLayers, hkey, hcast]
  simp only [runModify, modify, checkDataInput, hinf, hnorm, checkActivity,
    checkAdjacency, hlay]

/-- Witness for the amended C3 theorem: `None` in the integer `time`
layer raises the caught-and-wrapped `mlPlexusTypeError`, while the
string `"x"` raises the uncaught builtin `ValueError`; both calls leave
the store untouched. -/
theorem c3_witness :
    runModify arch3 fs3
        ⟨some ⟨[1], [0]⟩, none, none, [("time", false, ⟨[1], [.pyNone]⟩)]⟩
      = (.error (castFailErr .typeE), fs3) ∧
    runModify arch3 fs3
        ⟨some ⟨[1], [0]⟩, none, none, [("time", false, ⟨[1], [.s "x"]⟩)]⟩
      = (.error (castFailErr .valueE), fs3) :=
  ⟨c3_layer_cast_errors arch3 fs3 [0] "time" .dInt false ⟨[1], [.pyNone]⟩
     .typeE rfl rfl,
   c3_layer_cast_errors arch3 fs3 [0] "time" .dInt false ⟨[1], [.s "x"]⟩
     .valueE rfl rfl⟩

end MLPlexus

namespace MLPlexus

/-- C5, counterexample: on a two-node store, supplying only a bare
`(n_node, n_node)` adjacency ndarray with `obs_ix=None` raises
`mlPlexusValueError` instead of writing one observation — the append-size
inference reads the matrix's leading dimension as `n_node` new
observations, which the broadcast-to-one-observation shape check then
rejects.  So the claim is false for `modify` calls that omit `obs_ix`. -/
theorem c5_counterexample :
    runModify arch2 fs2 ⟨none, none, some (true, ⟨[2, 2], [0, 1, 1, 0]⟩), []⟩
      = (.error .valueErr, fs2) := rfl

/-- C5 (amended): whenever the resolved index vector has length one (here:
`obs_ix` supplied as a single index) and `n_node ≥ 2`, an adjacency
matrix of shape `(n_node, n_node)` with no leading observation axis is
accepted, broadcast to a leading axis of length one, and written as
exactly that one observation, leaving every other record unchanged. -/
theorem c5_adjacency_broadcast (a : Arch) (fs : FS) (f : List Obs) (i : Nat)
    (d : List Int) (b : Bool)
    (hf : fs.dats.lookup a.datPath = some f)
    (hn : 2 ≤ a.n_node)
    (hd : d.length = a.n_node * a.n_node) :
    ∃ f2,
      runModify a fs
          ⟨some ⟨[1], [i]⟩, none, some (b, ⟨[a.n_node, a.n_node], d⟩), []⟩
        = (.ok ({ a with viewLen := max (i + 1) f.length, data_new := false }, []),
           { fs with dats := (a.datPath, f2) :: fs.dats }) ∧
      f2.length = max (i + 1) f.length ∧
      (f2.getD i default).adjacency = d ∧
      (∀ j, j < f.length → j ≠ i → f2.getD j default = f.getD j default) := by
  have hn1 : ¬ (a.n_node = 1) := by omega
  have hinf : inferObs a.viewLen
      ⟨some ⟨[1], [i]⟩, none, some (b, ⟨[a.n_node, a.n_node], d⟩), []⟩
      = .ok ⟨[1], [i]⟩ := rfl
  have hnorm := normalizeIx_vec 1 [i]
  have hadj : checkAdjacency (NDArr.len (⟨[1], [i]⟩ : NDArr Nat)) a.n_node
      (some (b, ⟨[a.n_node, a.n_node], d⟩))
      = .ok (some ⟨[1, a.n_node, a.n_node], d⟩) := by
    simp [checkAdjacency, NDArr.squeeze, NDArr.ndim, NDArr.expand0, NDArr.len, hn1]
  have hcdi : checkDataInput a
      ⟨some ⟨[1], [i]⟩, none, some (b, ⟨[a.n_node, a.n_node], d⟩), []⟩
      = .ok (⟨[1], [i]⟩, none, some ⟨[1, a.n_node, a.n_node], d⟩, [], []) := by
    simp only [checkDataInput, hinf, hnorm, checkActivity, hadj, checkLayers]
  set z := zeroObs a.arch_dtype with hz
  set f1 := ensureLen (i + 1) z f with hf1
  have hf1len : f1.length = max (i + 1) f.length := by
    rw [hf1, ensureLen_length]
  set f2 := writeAdj a.n_node [i] d f1 with hf2
  have hf2len : f2.length = max (i + 1) f.length := by
    rw [hf2, writeAdj, writeField, writeFieldFrom_length, hf1len]
  have hrange : ∀ j ∈ ([i] : List Nat), j < f1.length := by
    intro j hj
    rcases List.mem_cons.mp hj with h | h
    · subst h; rw [hf1len]; omega
    · cases h
  refine ⟨f2, ?_, hf2len, ?_, ?_⟩
  · simp only [runModify, modify, hcdi, hf]
    rw [if_pos (show (0 : Nat) < NDArr.len (⟨[1], [i]⟩ : NDArr Nat) from
      Nat.zero_lt_one)]
    simp only [writeLayers]
    have hmx : (([i] : List Nat).foldl max 0) + 1 = i + 1 := by simp
    rw [hmx, ← hz, ← hf1, ← hf2, hf2len]
  · have hnd : ([i] : List Nat).Nodup := by simp
    have hw := writeFieldFrom_getD_write
      (fun q o => { o with adjacency := rowOf (a.n_node * a.n_node) d q })
      [i] 0 f1 hnd hrange 0 (by simp)
    rw [List.getD_cons_zero] at hw
    rw [hf2, writeAdj, writeField, hw]
    show rowOf (a.n_node * a.n_node) d 0 = d
    rw [rowOf, Nat.zero_mul, List.drop_zero, ← hd, List.take_length]
  · intro j hj hji
    have hjm : j ∉ ([i] : List Nat) := by simp [hji]
    rw [hf2, writeAdj, writeField, writeFieldFrom_getD_notMem _ _ _ _ _ hjm]
    rw [hf1, ensureLen_getD _ _ _ _ hj]

/-- Witness for the amended C5 theorem: writing a single `2 × 2` adjacency
matrix at index 0 of the fresh two-node store. -/
theorem c5_witness :
    ∃ f2,
      runModify arch2 fs2
          ⟨some ⟨[1], [0]⟩, none,
           some (true, ⟨[arch2.n_node, arch2.n_node], [0, 1, 1, 0]⟩), []⟩
        = (.ok ({ arch2 with
              viewLen := max (0 + 1) ([zeroObs dt2]).length, data_new := false }, []),
           { fs2 with dats := (arch2.datPath, f2) :: fs2.dats }) ∧
      f2.length = max (0 + 1) ([zeroObs dt2]).length ∧
      (f2.getD 0 default).adjacency = [0, 1, 1, 0] ∧
      (∀ j, j < ([zeroObs dt2]).length → j ≠ 0 →
        f2.getD j default = ([zeroObs dt2]).getD j default) :=
  c5_adjacency_broadcast arch2 fs2 [zeroObs dt2] 0 [0, 1, 1, 0] true
    (by decide) (by decide) (by decide)

end MLPlexus

namespace MLPlexus

/-- If position `j` of the schema names a field different from `key`, the
position `findIdx` computes for `key` is not `j`. -/
theorem findIdx_ne_of_fst_ne (names : List (String × DType)) (key : String)
    (j : Nat) (hj : j < names.length)
    (hne : (names.getD j ("", .dInt)).1 ≠ key) :
    names.findIdx (fun p => p.1 == key) ≠ j := by
  intro h
  have hlt : names.findIdx (fun p => p.1 == key) < names.length := by
    rw [h]; exact hj
  have hp := @List.findIdx_getElem _ (fun p => p.1 == key) names hlt
  simp only [h] at hp
  apply hne
  rw [List.getD_eq_getElem _ _ hj]
  exact eq_of_beq hp

/-- C2: a successful `modify` call overwrites only the supplied fields at
the resolved observation indices.  At every pre-existing index outside
`obs_ix` the whole record is unchanged; at every pre-existing index, a
field that was not supplied (activity, adjacency, or any declared layer
field whose name was not among the call's layer arguments) keeps its
previous value. -/
theorem c2_frame (a : Arch) (fs : FS) (m : MArgs) (ixRaw ixArr : NDArr Nat)
    (act adj : Option (NDArr Int)) (lays : List (String × List Val))
    (ws : List String) (a2 : Arch) (fs2 : FS) (w2 : List String)
    (f f2 : List Obs)
    (hinf : inferObs a.viewLen m = .ok ixRaw)
    (hnorm : normalizeIx ixRaw = .ok ixArr)
    (hact : checkActivity ixArr.len a.n_node m.activity = .ok act)
    (hadj : checkAdjacency ixArr.len a.n_node m.adjacency = .ok adj)
    (hlays : checkLayers a.arch_dtype ixArr.len m.layers = .ok (lays, ws))
    (hmod : modify a fs m = .ok (a2, fs2, w2))
    (hf : fs.dats.lookup a.datPath = some f)
    (hf2 : fs2.dats.lookup a.datPath = some f2)
    (i : Nat) (hi : i < f.length) :
    (i ∉ ixArr.data → f2.getD i default = f.getD i default) ∧
    (m.activity = none →
      (f2.getD i default).activity = (f.getD i default).activity) ∧
    (m.adjacency = none →
      (f2.getD i default).adjacency = (f.getD i default).adjacency) ∧
    (∀ j, j < a.arch_dtype.layers.length →
      (∀ e ∈ m.layers, e.1 ≠ (a.arch_dtype.layers.getD j ("", .dInt)).1) →
      (f2.getD i default).layers.getD j default
        = (f.getD i default).layers.getD j default) := by
  have hcdi : checkDataInput a m = .ok (ixArr, act, adj, lays, ws) := by
    simp only [checkDataInput, hinf, hnorm, hact, hadj, hlays]
  have hkeys : ∀ (jj : Nat), jj < a.arch_dtype.layers.length →
      (∀ e ∈ m.layers, e.1 ≠ (a.arch_dtype.layers.getD jj ("", .dInt)).1) →
      ∀ e2 ∈ lays,
        a.arch_dtype.layers.findIdx (fun p => p.1 == e2.1) ≠ jj := by
    intro jj hjj hne e2 he2
    obtain ⟨e3, he3, heq⟩ :=
      checkLayers_keys_sub a.arch_dtype ixArr.len m.layers lays ws hlays e2 he2
    refine findIdx_ne_of_fst_ne _ _ _ hjj ?_
    intro hcontra
    exact (hne e3 he3) (by rw [heq, hcontra])
  by_cases hg : 0 < ixArr.len
  · cases act with
    | none =>
        have hmn : m.activity = none := by
          cases hma : m.activity with
          | none => rfl
          | some pr =>
              rw [hma] at hact
              rcases pr with ⟨b2, a0⟩
              simp only [checkActivity] at hact
              by_cases h1 : (if (NDArr.squeeze a0).ndim = 1 then
                  (NDArr.squeeze a0).expand0 else NDArr.squeeze a0).shape
                  = [ixArr.len, a.n_node]
              · rw [if_pos h1] at hact
                exact Option.noConfusion (Except.ok.inj hact)
              · rw [if_neg h1] at hact
                by_cases h2 : (NDArr.transpose (if (NDArr.squeeze a0).ndim = 1
                    then (NDArr.squeeze a0).expand0
                    else NDArr.squeeze a0)).shape = [ixArr.len, a.n_node]
                · rw [if_pos h2] at hact
                  exact Option.noConfusion (Except.ok.inj hact)
                · rw [if_neg h2] at hact
                  exact Except.noConfusion hact
        cases adj with
        | none =>
            have hcomp : modify a fs m
                = .ok ({ a with
                    viewLen := (writeLayers a.arch_dtype.layers ixArr.data lays
                      (ensureLen (ixArr.data.foldl max 0 + 1)
                        (zeroObs a.arch_dtype) f)).length, data_new := false },
                  { fs with dats := (a.datPath,
                    writeLayers a.arch_dtype.layers ixArr.data lays
                      (ensureLen (ixArr.data.foldl max 0 + 1)
                        (zeroObs a.arch_dtype) f)) :: fs.dats }, ws) := by
              simp only [modify, hcdi, hf]
              rw [if_pos hg]
            set G := writeLayers a.arch_dtype.layers ixArr.data lays
              (ensureLen (ixArr.data.foldl max 0 + 1) (zeroObs a.arch_dtype) f)
              with hG
            have hfs2 : fs2 = { fs with dats := (a.datPath, G) :: fs.dats } :=
              (congrArg (fun t => t.2.1)
                (Except.ok.inj (hcomp.symm.trans hmod))).symm
            have hf2G : f2 = G := by
              rw [hfs2] at hf2
              simp only [List.lookup, beq_self_eq_true] at hf2
              exact (Option.some.inj hf2).symm
            refine ⟨?_, ?_, ?_, ?_⟩
            · intro hni
              rw [hf2G, hG, writeLayers_getD_notMem _ _ _ _ _ hni,
                ensureLen_getD _ _ _ _ hi]
            · intro _
              rw [hf2G, hG, writeLayers_proj_act,
                ensureLen_getD _ _ _ _ hi]
            · intro _
              rw [hf2G, hG, writeLayers_proj_adj,
                ensureLen_getD _ _ _ _ hi]
            · intro j hj hne
              rw [hf2G, hG,
                writeLayers_proj_layer _ _ _ _ _ _ (hkeys j hj hne),
                ensureLen_getD _ _ _ _ hi]
        | some B =>
            have hcomp : modify a fs m
                = .ok ({ a with
                    viewLen := (writeLayers a.arch_dtype.layers ixArr.data lays
                      (writeAdj a.n_node ixArr.data B.data
                        (ensureLen (ixArr.data.foldl max 0 + 1)
                          (zeroObs a.arch_dtype) f))).length, data_new := false },
                  { fs with dats := (a.datPath,
                    writeLayers a.arch_dtype.layers ixArr.data lays
                      (writeAdj a.n_node ixArr.data B.data
                        (ensureLen (ixArr.data.foldl max 0 + 1)
                          (zeroObs a.arch_dtype) f))) :: fs.dats }, ws) := by
              simp only [modify, hcdi, hf]
              rw [if_pos hg]
            set G := writeLayers a.arch_dtype.layers ixArr.data lays
              (writeAdj a.n_node ixArr.data B.data
                (ensureLen (ixArr.data.foldl max 0 + 1) (zeroObs a.arch_dtype) f))
              with hG
            have hfs2 : fs2 = { fs with dats := (a.datPath, G) :: fs.dats } :=
              (congrArg (fun t => t.2.1)
                (Except.ok.inj (hcomp.symm.trans hmod))).symm
            have hf2G : f2 = G := by
              rw [hfs2] at hf2
              simp only [List.lookup, beq_self_eq_true] at hf2
              exact (Option.some.inj hf2).symm
            have hmadj : ¬ (m.adjacency = none) := by
              intro hma
              rw [hma] at hadj
              simp only [checkAdjacency] at hadj
              exact Option.noConfusion (Except.ok.inj hadj)
            refine ⟨?_, ?_, ?_, ?_⟩
            · intro hni
              rw [hf2G, hG, writeLayers_getD_notMem _ _ _ _ _ hni, writeAdj,
                writeField, writeFieldFrom_getD_notMem _ _ _ _ _ hni,
                ensureLen_getD _ _ _ _ hi]
            · intro _
              rw [hf2G, hG, writeLayers_proj_act, writeAdj, writeField,
                writeFieldFrom_proj (fun o => o.activity)
                  (fun p o => { o with
                    adjacency := rowOf (a.n_node * a.n_node) B.data p })
                  (fun _ _ => rfl),
                ensureLen_getD _ _ _ _ hi]
            · intro hma
              exact absurd hma hmadj
            · intro j hj hne
              rw [hf2G, hG,
                writeLayers_proj_layer _ _ _ _ _ _ (hkeys j hj hne), writeAdj,
                writeField,
                writeFieldFrom_proj (fun o => o.layers.getD j default)
                  (fun p o => { o with
                    adjacency := rowOf (a.n_node * a.n_node) B.data p })
                  (fun _ _ => rfl),
                ensureLen_getD _ _ _ _ hi]
    | some A =>
        have hmact : ¬ (m.activity = none) := by
          intro hma
          rw [hma] at hact
          simp only [checkActivity] at hact
          exact Option.noConfusion (Except.ok.inj hact)
        cases adj with
        | none =>
            have hmadjn : m.adjacency = none := by
              cases hma : m.adjacency with
              | none => rfl
              | some pr =>
                  rw [hma] at hadj
                  rcases pr with ⟨b2, a0⟩
                  simp only [checkAdjacency] at hadj
                  by_cases h1 : (NDArr.squeeze a0).ndim = 2
                  · rw [if_pos h1] at hadj
                    by_cases h2 : (NDArr.squeeze a0).shape.headD 0
                        = (NDArr.squeeze a0).shape.getD 1 0
                    · rw [if_pos h2] at hadj
                      by_cases h3 : (NDArr.expand0 (NDArr.squeeze a0)).shape
                          = [ixArr.len, a.n_node, a.n_node]
                      · rw [if_pos h3] at hadj
                        exact Option.noConfusion (Except.ok.inj hadj)
                      · rw [if_neg h3] at hadj
                        exact Except.noConfusion hadj
                    · rw [if_neg h2] at hadj
                      exact Except.noConfusion hadj
                  · rw [if_neg h1] at hadj
                    by_cases h2 : (NDArr.squeeze a0).shape
                        = [ixArr.len, a.n_node, a.n_node]
                    · rw [if_pos h2] at hadj
                      exact Option.noConfusion (Except.ok.inj hadj)
                    · rw [if_neg h2] at hadj
                      exact Except.noConfusion hadj
            have hcomp : modify a fs m
                = .ok ({ a with
                    viewLen := (writeLayers a.arch_dtype.layers ixArr.data lays
                      (writeAct a.n_node ixArr.data A.data
                        (ensureLen (ixArr.data.foldl max 0 + 1)
                          (zeroObs a.arch_dtype) f))).length, data_new := false },
                  { fs with dats := (a.datPath,
                    writeLayers a.arch_dtype.layers ixArr.data lays
                      (writeAct a.n_node ixArr.data A.data
                        (ensureLen (ixArr.data.foldl max 0 + 1)
                          (zeroObs a.arch_dtype) f))) :: fs.dats }, ws) := by
              simp only [modify, hcdi, hf]
              rw [if_pos hg]
            set G := writeLayers a.arch_dtype.layers ixArr.data lays
              (writeAct a.n_node ixArr.data A.data
                (ensureLen (ixArr.data.foldl max 0 + 1) (zeroObs a.arch_dtype) f))
              with hG
            have hfs2 : fs2 = { fs with dats := (a.datPath, G) :: fs.dats } :=
              (congrArg (fun t => t.2.1)
                (Except.ok.inj (hcomp.symm.trans hmod))).symm
            have hf2G : f2 = G := by
              rw [hfs2] at hf2
              simp only [List.lookup, beq_self_eq_true] at hf2
              exact (Option.some.inj hf2).symm
            refine ⟨?_, ?_, ?_, ?_⟩
            · intro hni
              rw [hf2G, hG, writeLayers_getD_notMem _ _ _ _ _ hni, writeAct,
                writeField, writeFieldFrom_getD_notMem _ _ _ _ _ hni,
                ensureLen_getD _ _ _ _ hi]
            · intro hma
              exact absurd hma hmact
            · intro _
              rw [hf2G, hG, writeLayers_proj_adj, writeAct, writeField,
                writeFieldFrom_proj (fun o => o.adjacency)
                  (fun p o => { o with activity := rowOf a.n_node A.data p })
                  (fun _ _ => rfl),
                ensureLen_getD _ _ _ _ hi]
            · intro j hj hne
              rw [hf2G, hG,
                writeLayers_proj_layer _ _ _ _ _ _ (hkeys j hj hne), writeAct,
                writeField,
                writeFieldFrom_proj (fun o => o.layers.getD j default)
                  (fun p o => { o with activity := rowOf a.n_node A.data p })
                  (fun _ _ => rfl),
                ensureLen_getD _ _ _ _ hi]
        | some B =>
            have hmadj : ¬ (m.adjacency = none) := by
              intro hma
              rw [hma] at hadj
              simp only [checkAdjacency] at hadj
              exact Option.noConfusion (Except.ok.inj hadj)
            have hcomp : modify a fs m
                = .ok ({ a with
                    viewLen := (writeLayers a.arch_dtype.layers ixArr.data lays
                      (writeAdj a.n_node ixArr.data B.data
                        (writeAct a.n_node ixArr.data A.data
                          (ensureLen (ixArr.data.foldl max 0 + 1)
                            (zeroObs a.arch_dtype) f)))).length,
                    data_new := false },
                  { fs with dats := (a.datPath,
                    writeLayers a.arch_dtype.layers ixArr.data lays
                      (writeAdj a.n_node ixArr.data B.data
                        (writeAct a.n_node ixArr.data A.data
                          (ensureLen (ixArr.data.foldl max 0 + 1)
                            (zeroObs a.arch_dtype) f)))) :: fs.dats }, ws) := by
              simp only [modify, hcdi, hf]
              rw [if_pos hg]
            set G := writeLayers a.arch_dtype.layers ixArr.data lays
              (writeAdj a.n_node ixArr.data B.data
                (writeAct a.n_node ixArr.data A.data
                  (ensureLen (ixArr.data.foldl max 0 + 1)
                    (zeroObs a.arch_dtype) f))) with hG
            have hfs2 : fs2 = { fs with dats := (a.datPath, G) :: fs.dats } :=
              (congrArg (fun t => t.2.1)
                (Except.ok.inj (hcomp.symm.trans hmod))).symm
            have hf2G : f2 = G := by
              rw [hfs2] at hf2
              simp only [List.lookup, beq_self_eq_true] at hf2
              exact (Option.some.inj hf2).symm
            refine ⟨?_, ?_, ?_, ?_⟩
            · intro hni
              rw [hf2G, hG, writeLayers_getD_notMem _ _ _ _ _ hni, writeAdj,
                writeField, writeFieldFrom_getD_notMem _ _ _ _ _ hni, writeAct,
                writeField, writeFieldFrom_getD_notMem _ _ _ _ _ hni,
                ensureLen_getD _ _ _ _ hi]
            · intro hma
              exact absurd hma hmact
            · intro hma
              exact absurd hma hmadj
            · intro j hj hne
              rw [hf2G, hG,
                writeLayers_proj_layer _ _ _ _ _ _ (hkeys j hj hne), writeAdj,
                writeField,
                writeFieldFrom_proj (fun o => o.layers.getD j default)
                  (fun p o => { o with
                    adjacency := rowOf (a.n_node * a.n_node) B.data p })
                  (fun _ _ => rfl),
                writeAct, writeField,
                writeFieldFrom_proj (fun o => o.layers.getD j default)
                  (fun p o => { o with activity := rowOf a.n_node A.data p })
                  (fun _ _ => rfl),
                ensureLen_getD _ _ _ _ hi]
  · have hcomp : modify a fs m
        = .ok ({ a with data_new := false }, fs, ws) := by
      simp only [modify, hcdi]
      rw [if_neg hg]
    have hfs2 : fs2 = fs :=
      (congrArg (fun t => t.2.1) (Except.ok.inj (hcomp.symm.trans hmod))).symm
    have hf2f : f2 = f := by
      rw [hfs2] at hf2
      exact (Option.some.inj (hf.symm.trans hf2)).symm
    subst hf2f
    exact ⟨fun _ => rfl, fun _ => rfl, fun _ => rfl, fun _ _ _ => rfl⟩

/-- The record of the concrete spec scenario: activity `[1,2,3]`, a ring
adjacency, `time = 5`. -/
def obsW : Obs := ⟨[1, 2, 3], [0, 1, 0, 1, 0, 1, 0, 1, 0], [.i 5]⟩

/-- The same record after `modify(obs_ix=[0], activity=[[9,9,9]])`. -/
def obsW2 : Obs := ⟨[9, 9, 9], [0, 1, 0, 1, 0, 1, 0, 1, 0], [.i 5]⟩

/-- The three-node store holding exactly the record `obsW`. -/
def archW : Arch := ⟨⟨true, [3], ["A", "B", "C"]⟩, 3, dt3, "P", 1, false⟩

/-- Its filesystem. -/
def fsW : FS := ⟨[], [("P", [obsW])]⟩

/-- The filesystem after the partial update. -/
def fsW2 : FS := ⟨[], [("P", [obsW2]), ("P", [obsW])]⟩

/-- The call `modify(obs_ix=[0], activity=[[9,9,9]])` with the activity
given as a plain nested list. -/
def mW : MArgs := ⟨some ⟨[1], [0]⟩, some (false, ⟨[1, 3], [9, 9, 9]⟩), none, []⟩

/-- Witness for C2 at the spec's concrete scenario: updating only the
activity at index 0 leaves the adjacency and the `time` layer value of
that record untouched. -/
theorem c2_witness :
    ((0 : Nat) ∉ (⟨[1], [0]⟩ : NDArr Nat).data →
      ([obsW2].getD 0 default) = ([obsW].getD 0 default)) ∧
    (mW.activity = none →
      (([obsW2].getD 0 default)).activity = (([obsW].getD 0 default)).activity) ∧
    (mW.adjacency = none →
      (([obsW2].getD 0 default)).adjacency
        = (([obsW].getD 0 default)).adjacency) ∧
    (∀ j, j < archW.arch_dtype.layers.length →
      (∀ e ∈ mW.layers, e.1 ≠ (archW.arch_dtype.layers.getD j ("", .dInt)).1) →
      (([obsW2].getD 0 default)).layers.getD j default
        = (([obsW].getD 0 default)).layers.getD j default) :=
  c2_frame archW fsW mW ⟨[1], [0]⟩ ⟨[1], [0]⟩ (some ⟨[1, 3], [9, 9, 9]⟩) none
    [] [] archW fsW2 [] [obsW] [obsW2] rfl rfl rfl rfl rfl rfl rfl rfl 0
    (by decide)

/-- C8, counterexample: with `obs_ix=None`, valid activity of shape
`(1, 3)`, and an unknown layer name carrying a `(2, 7)` ndarray, the call
raises `mlPlexusValueError` and writes nothing — the append-size
inference counts the undeclared field's leading dimension (2) before the
field is dropped, and the activity then fails the `(2, 3)` shape check.
So the claim's promise that the valid activity is still written is false
as stated. -/
theorem c8_counterexample :
    runModify arch3 fs3
        ⟨none, some (true, ⟨[1, 3], [1, 2, 3]⟩), none,
         [("bogus", true, ⟨[2, 7], List.replicate 14 (Val.i 0)⟩)]⟩
      = (.error .valueErr, fs3) := rfl

/-- C8 (amended): supplying an unknown layer-field name alongside valid
activity shaped `(k, n_node)` (with `(k, n_node) ≠ (1, 1)`) drops the
unknown field with a warning and still writes the activity — provided the
unknown field's value does not imply more observations than the activity
does (index inference runs before unknown fields are dropped, so an
ndarray value with a larger leading dimension would fail the call). -/
theorem c8_unknown_layer_partial (a : Arch) (fs : FS) (f : List Obs) (k : Nat)
    (d : List Int) (key : String) (b : Bool) (arr : NDArr Val)
    (hf : fs.dats.lookup a.datPath = some f)
    (hflen : f.length ≤ a.viewLen + k)
    (hk : 1 ≤ k)
    (hnot : ¬(k = 1 ∧ a.n_node = 1))
    (hd : d.length = k * a.n_node)
    (hkey : a.arch_dtype.layers.lookup key = none)
    (hcount : impliedCount (some (b, arr)) ≤ k) :
    ∃ f2,
      runModify a fs
          ⟨none, some (true, ⟨[k, a.n_node], d⟩), none, [(key, b, arr)]⟩
        = (.ok ({ a with viewLen := a.viewLen + k, data_new := false },
                ["warn-ignoring-layer-" ++ key]),
           { fs with dats := (a.datPath, f2) :: fs.dats }) ∧
      f2.length = a.viewLen + k ∧
      (∀ p, p < k →
        (f2.getD (a.viewLen + p) default).activity = rowOf a.n_node d p) ∧
      (∀ j, j < f.length →
        (f2.getD j default).layers = (f.getD j default).layers) := by
  have hlay : ∀ e ∈ [(key, b, arr)], impliedCount (some e.2) ≤ k := by
    intro e he
    rcases List.mem_cons.mp he with h | h
    · rw [h]; exact hcount
    · cases h
  have hchk : checkLayers a.arch_dtype k [(key, b, arr)]
      = .ok ([], ["warn-ignoring-layer-" ++ key]) := by
    simp only [checkLayers, hkey]
  obtain ⟨f2, hmod, hlen, hwrite, hlayfr, _, _⟩ :=
    modify_append_activity a fs f k d [(key, b, arr)]
      ["warn-ignoring-layer-" ++ key] hf hflen hk hnot hd hlay hchk
  refine ⟨f2, ?_, hlen, ?_, hlayfr⟩
  · simp only [runModify, hmod]
  · intro p hp
    rw [hwrite p hp]

/-- Witness for the amended C8 theorem: unknown field `bogus` (ndarray of
one observation) next to `(1, 3)` activity on the fresh three-node
store. -/
theorem c8_witness :
    ∃ f2,
      runModify arch3 fs3
          ⟨none, some (true, ⟨[1, arch3.n_node], [1, 2, 3]⟩), none,
           [("bogus", true, ⟨[1], [Val.i 0]⟩)]⟩
        = (.ok ({ arch3 with viewLen := arch3.viewLen + 1, data_new := false },
                ["warn-ignoring-layer-" ++ "bogus"]),
           { fs3 with dats := (arch3.datPath, f2) :: fs3.dats }) ∧
      f2.length = arch3.viewLen + 1 ∧
      (∀ p, p < 1 →
        (f2.getD (arch3.viewLen + p) default).activity
          = rowOf arch3.n_node [1, 2, 3] p) ∧
      (∀ j, j < ([zeroObs dt3]).length →
        (f2.getD j default).layers = (([zeroObs dt3]).getD j default).layers) :=
  c8_unknown_layer_partial arch3 fs3 [zeroObs dt3] 1 [1, 2, 3] "bogus" true
    ⟨[1], [Val.i 0]⟩ (by decide) (by decide) (by decide) (by decide) (by decide)
    (by decide) (by decide)

/-- A successful `modify` always clears the transience flag. -/
theorem modify_ok_data_new (a : Arch) (fs : FS) (m : MArgs) (a2 : Arch)
    (fs2 : FS) (w : List String) (h : modify a fs m = .ok (a2, fs2, w)) :
    a2.data_new = false := by
  rw [modify] at h
  cases hc : checkDataInput a m with
  | error e =>
      rw [hc] at h
      exact Except.noConfusion h
  | ok t =>
      obtain ⟨ixArr, act, adj, lays, ws⟩ := t
      simp only [hc] at h
      by_cases hg : 0 < ixArr.len
      · rw [if_pos hg] at h
        cases hl : fs.dats.lookup a.datPath with
        | none =>
            rw [hl] at h
            exact Except.noConfusion h
        | some f =>
            simp only [hl] at h
            have h2 := congrArg
              (fun t => match t with | .ok x => x.1.data_new | .error _ => true) h
            simpa using h2
      · rw [if_neg hg] at h
        have h2 := congrArg
          (fun t => match t with | .ok x => x.1.data_new | .error _ => true) h
        simpa using h2

/-- C7: teardown of the backing file.  A store still marked transient
(created by the constructor, never successfully modified) has its backing
file removed on release when the delete succeeds, and release is a total
function even when the delete fails (the failure is swallowed and the
file simply stays).  After any successful `modify`, release never touches
the backing file, whether or not a delete would succeed. -/
theorem c7_transient_teardown :
    (∀ (a : Arch) (fs : FS), a.data_new = true →
      ((release true a fs).dats.lookup a.datPath = none ∧
        release false a fs = fs)) ∧
    (∀ (a : Arch) (fs : FS) (m : MArgs) (a2 : Arch) (w : List String)
      (fs2 : FS), runModify a fs m = (.ok (a2, w), fs2) →
        ∀ dOk, release dOk a2 fs2 = fs2) := by
  constructor
  · intro a fs hnew
    constructor
    · simp only [release, hnew, if_true]
      exact lookup_filter_ne a.datPath fs.dats
    · simp [release, hnew]
  · intro a fs m a2 w fs2 hrun dOk
    have hdn : a2.data_new = false := by
      rw [runModify] at hrun
      cases hm : modify a fs m with
      | error e =>
          rw [hm] at hrun
          exact Except.noConfusion (congrArg Prod.fst hrun)
      | ok t =>
          obtain ⟨t1, t2, t3⟩ := t
          simp only [hm] at hrun
          have ht1 : t1 = a2 :=
            congrArg (fun q => match q.1 with | .ok x => x.1 | .error _ => t1) hrun
          rw [← ht1]
          exact modify_ok_data_new a fs m t1 t2 t3 hm
    simp [release, hdn]

/-- The record written by the successful `modify` used in the C7
witness. -/
def obsStep : Obs := ⟨[7, 8, 9], [0, 0, 0, 0, 0, 0, 0, 0, 0], [.i 0]⟩

/-- The three-node store after that `modify`. -/
def archStep : Arch := ⟨⟨true, [3], ["A", "B", "C"]⟩, 3, dt3, "P", 1, false⟩

/-- Its filesystem after that `modify`. -/
def fsStep : FS := ⟨[], [("P", [obsStep]), ("P", [zeroObs dt3])]⟩

/-- Witness for C7: releasing the fresh (never-modified) store deletes its
backing file when the delete succeeds and is harmless when it fails;
releasing the same store after one successful `modify` keeps the file. -/
theorem c7_witness :
    ((release true arch3 fs3).dats.lookup arch3.datPath = none ∧
      release false arch3 fs3 = fs3) ∧
    release true archStep fsStep = fsStep :=
  ⟨c7_transient_teardown.1 arch3 fs3 rfl,
   c7_transient_teardown.2 arch3 fs3
     ⟨some ⟨[1], [0]⟩, some (false, ⟨[1, 3], [7, 8, 9]⟩), none, []⟩
     archStep [] fsStep rfl true⟩

/-- C4, code bug: in the create path the dtype-coercion and flattening
branches are inverted.  `checkArrDTypeStr(node_id)` false prints the
warning "Supplied Node IDs should be strings, converting..." but skips
the `np.array(node_id, dtype=str)` conversion (it runs only in the `else`
branch, when the dtype already is string); likewise a non-1-D `node_id`
warns "should be flat, converting..." but is never flattened.  Evaluating
the embedding: an integer-dtype `node_id` is persisted with its
non-string dtype (first conjunct), and a `2 × 2` `node_id` is persisted
still two-dimensional with `n_node = 2` instead of 4 (second conjunct) —
contradicting both the spec and the code's own warning messages. -/
theorem c4_node_id_not_coerced :
    (construct ⟨[], []⟩ (some "g") (some "d")
        (some (true, ⟨false, [3], ["1", "2", "3"]⟩))
        (some (true, [("time", DType.dInt)]))
      = .ok (⟨⟨false, [3], ["1", "2", "3"]⟩, 3, ⟨3, [("time", .dInt)]⟩,
             datPath "d" "g", 0, true⟩,
             ⟨[(defPath "d" "g",
                ⟨⟨false, [3], ["1", "2", "3"]⟩, 3, ⟨3, [("time", .dInt)]⟩⟩)],
              [(datPath "d" "g", [zeroObs ⟨3, [("time", .dInt)]⟩])]⟩,
             ["warn-node-id-str"])) ∧
    (construct ⟨[], []⟩ (some "g") (some "d")
        (some (true, ⟨true, [2, 2], ["a", "b", "c", "d"]⟩))
        (some (true, []))
      = .ok (⟨⟨true, [2, 2], ["a", "b", "c", "d"]⟩, 2, ⟨2, []⟩,
             datPath "d" "g", 0, true⟩,
             ⟨[(defPath "d" "g",
                ⟨⟨true, [2, 2], ["a", "b", "c", "d"]⟩, 2, ⟨2, []⟩⟩)],
              [(datPath "d" "g", [zeroObs ⟨2, []⟩])]⟩,
             ["warn-node-id-flat"])) :=
  ⟨rfl, rfl⟩

/-- The load path of the constructor: when definition metadata exists at
the deterministic path, every other argument is ignored and the persisted
record is reloaded as-is; an existing dataset is opened read-only. -/
theorem construct_load (fs : FS) (nm dir : String)
    (nid : Option (Bool × NodeArr))
    (lid : Option (Bool × List (String × DType))) (r : DefRec)
    (hdef : fs.defs.lookup (defPath dir nm) = some r)
    (c : List Obs) (hdat : fs.dats.lookup (datPath dir nm) = some c) :
    construct fs (some nm) (some dir) nid lid
      = .ok (⟨r.node_id, r.n_node, r.arch_dtype, datPath dir nm, c.length,
             false⟩, fs, []) := by
  simp only [construct, hdef, ioArchDat, hdat]

/-- The create path of the constructor: on success it has persisted one
definition record at the deterministic path (prepended to the metadata
store), installed exactly that record's fields on the returned object,
and ensured a dataset file exists at the deterministic data path. -/
theorem construct_ok_fs (fs : FS) (nm dir : String)
    (nid : Option (Bool × NodeArr))
    (lid : Option (Bool × List (String × DType)))
    (a1 : Arch) (fs1 : FS) (w1 : List String)
    (hfresh : fs.defs.lookup (defPath dir nm) = none)
    (h : construct fs (some nm) (some dir) nid lid = .ok (a1, fs1, w1)) :
    ∃ r : DefRec,
      fs1.defs = (defPath dir nm, r) :: fs.defs ∧
      a1.node_id = r.node_id ∧ a1.n_node = r.n_node ∧
      a1.arch_dtype = r.arch_dtype ∧ a1.datPath = datPath dir nm ∧
      ∃ c, fs1.dats.lookup (datPath dir nm) = some c := by
  rcases nid with _ | ⟨b, nid0⟩
  · simp only [construct, hfresh] at h
    exact Except.noConfusion h
  · cases b
    · simp only [construct, hfresh] at h
      exact Except.noConfusion h
    · rcases lid with _ | ⟨b2, spec⟩
      · simp only [construct, hfresh] at h
        exact Except.noConfusion h
      · cases b2
        · simp only [construct, hfresh] at h
          exact Except.noConfusion h
        · simp only [construct, hfresh, ioArchDat] at h
          cases hq : fs.dats.lookup (datPath dir nm) with
          | some content =>
              simp only [hq] at h
              injection h with h3
              injection h3 with ha hyz
              injection hyz with hfs _
              refine ⟨(mkDefRec nid0 spec).1, ?_, ?_, ?_, ?_, ?_, content, ?_⟩
              · rw [← hfs]
              · rw [← ha]
              · rw [← ha]
              · rw [← ha]
              · rw [← ha]
              · rw [← hfs]
                exact hq
          | none =>
              simp only [hq] at h
              injection h with h3
              injection h3 with ha hyz
              injection hyz with hfs _
              refine ⟨(mkDefRec nid0 spec).1, ?_, ?_, ?_, ?_, ?_,
                [zeroObs (mkDefRec nid0 spec).1.arch_dtype], ?_⟩
              · rw [← hfs]
              · rw [← ha]
              · rw [← ha]
              · rw [← ha]
              · rw [← ha]
              · rw [← hfs]
                simp only [List.lookup, beq_self_eq_true]

/-- C6: after a first construction has created the definition for
`(name, directory)`, constructing again with the same name and directory
— with arbitrary other arguments, valid or not — never raises, leaves the
whole filesystem untouched, and yields an object whose node identifiers,
`n_node` and schema are exactly those the first construction persisted
(create twice behaves as create then load). -/
theorem c6_create_idempotent (fs : FS) (nm dir : String)
    (nid : Option (Bool × NodeArr))
    (lid : Option (Bool × List (String × DType)))
    (nid2 : Option (Bool × NodeArr))
    (lid2 : Option (Bool × List (String × DType)))
    (a1 : Arch) (fs1 : FS) (w1 : List String)
    (hfresh : fs.defs.lookup (defPath dir nm) = none)
    (h : construct fs (some nm) (some dir) nid lid = .ok (a1, fs1, w1)) :
    ∃ c, fs1.dats.lookup (datPath dir nm) = some c ∧
      construct fs1 (some nm) (some dir) nid2 lid2
        = .ok ({ a1 with viewLen := c.length, data_new := false }, fs1, []) := by
  obtain ⟨r, hdefs, hni, hnn, hdt, hdp, c, hdat⟩ :=
    construct_ok_fs fs nm dir nid lid a1 fs1 w1 hfresh h
  have hlook : fs1.defs.lookup (defPath dir nm) = some r := by
    rw [hdefs]
    simp only [List.lookup, beq_self_eq_true]
  refine ⟨c, hdat, ?_⟩
  rw [construct_load fs1 nm dir nid2 lid2 r hlook c hdat]
  obtain ⟨n1, n2, n3, n4, v, dn⟩ := a1
  simp only at hni hnn hdt hdp
  rw [hni, hnn, hdt, hdp]

/-- The definition record persisted by the first construction in the C6
witness. -/
def rC6 : DefRec := ⟨⟨true, [2], ["a", "b"]⟩, 2, ⟨2, [("time", .dInt)]⟩⟩

/-- The object the first construction in the C6 witness returns. -/
def archC6 : Arch :=
  ⟨⟨true, [2], ["a", "b"]⟩, 2, ⟨2, [("time", .dInt)]⟩, datPath "d" "g", 0, true⟩

/-- The filesystem after the first construction in the C6 witness. -/
def fsC6 : FS :=
  ⟨[(defPath "d" "g", rC6)],
   [(datPath "d" "g", [zeroObs ⟨2, [("time", .dInt)]⟩])]⟩

/-- Witness for C6: create on an empty filesystem, then construct again
with every other argument set to `None`. -/
theorem c6_witness :
    ∃ c, fsC6.dats.lookup (datPath "d" "g") = some c ∧
      construct fsC6 (some "g") (some "d") none none
        = .ok ({ archC6 with viewLen := c.length, data_new := false },
               fsC6, []) :=
  c6_create_idempotent ⟨[], []⟩ "g" "d"
    (some (true, ⟨true, [2], ["a", "b"]⟩)) (some (true, [("time", .dInt)]))
    none none archC6 fsC6 [] rfl rfl

end MLPlexus
